import Mathlib

/-
Verification of the diagnostics ingestion core of cockpit-ros2-diagnostics.

The definitions below are shallow embeddings of:
  - the tree builder and aggregate-level helpers of
    src/components/RosConnectionManager.tsx (buildDiagnosticsTree,
    calculateOverallLevel),
  - the rolling history hook of src/hooks/useDiagHistory.ts
    (HISTORY_SIZE, updateDiagHistory, clearDiagHistory),
  - the pause/resume button of src/app.tsx (pressPauseButton),
  - the connection manager's timer/retry discipline of
    src/components/RosConnectionManager.tsx as an event-step system,
  - the Ros facade of src/roslib/Ros.ts.
JavaScript strings are Lean String, numbers are Int/Nat, undefined/null
are Option, and JS arrays are Lean lists.
-/

/-- Icon kinds produced by the severity-to-icon mapping
(RosConnectionManager.tsx lines 104-111); icon identity is abstracted to
which of the four icons is chosen. -/
inductive IconKind : Type where
  | info | danger | warning | success
deriving DecidableEq, Repr

/-- DiagnosticsEntry (src/interfaces.ts): name, path, rawName, message,
severity_level, hardware_id, values, icon, children.  The values map is
an ordered key-value list (JS object insertion order). -/
inductive DiagEntry : Type where
  | mk : (name : String) → (path : String) → (rawName : String) → (message : String) →
      (severity_level : Int) → (hardware_id : Option String) →
      (values : List (String × String)) → (icon : Option IconKind) →
      (children : List DiagEntry) → DiagEntry
deriving Repr

def DiagEntry.name : DiagEntry → String
  | .mk n _ _ _ _ _ _ _ _ => n

def DiagEntry.path : DiagEntry → String
  | .mk _ p _ _ _ _ _ _ _ => p

def DiagEntry.rawName : DiagEntry → String
  | .mk _ _ r _ _ _ _ _ _ => r

def DiagEntry.message : DiagEntry → String
  | .mk _ _ _ m _ _ _ _ _ => m

def DiagEntry.severity_level : DiagEntry → Int
  | .mk _ _ _ _ sev _ _ _ _ => sev

def DiagEntry.hardware_id : DiagEntry → Option String
  | .mk _ _ _ _ _ h _ _ _ => h

def DiagEntry.values : DiagEntry → List (String × String)
  | .mk _ _ _ _ _ _ v _ _ => v

def DiagEntry.icon : DiagEntry → Option IconKind
  | .mk _ _ _ _ _ _ _ i _ => i

def DiagEntry.children : DiagEntry → List DiagEntry
  | .mk _ _ _ _ _ _ _ _ cs => cs

/-- Replace the children array of an entry (models mutating
`existingEntry.children` through the `currentLevel` reference). -/
def DiagEntry.setChildren : DiagEntry → List DiagEntry → DiagEntry
  | .mk n p r m sev h v i _, cs => .mk n p r m sev h v i cs

/-- Default entry, used only to make list indexing total. -/
def defaultEntry : DiagEntry := .mk "" "" "" "" (-1) none [] none []

/-- Shape of the `values` field of an inbound record: an array of
key/value pairs, a plain object, or absent/null (spec section 6 inbound
wire message). -/
inductive InValues : Type where
  | arr : List (String × String) → InValues
  | obj : List (String × String) → InValues
  | absent : InValues
deriving DecidableEq, Repr

/-- One flat input record as consumed by buildDiagnosticsTree:
name, message, level, hardware_id, values; message/level/hardware_id may
be undefined. -/
structure InRecord where
  name : String
  message : Option String
  level : Option Int
  hardware_id : Option String
  values : InValues
deriving DecidableEq, Repr

/-- JavaScript `s.split(sep)` for a single-character separator, on the
character list. -/
def jsSplitList (sep : Char) : List Char → List (List Char)
  | [] => [[]]
  | c :: cs =>
    match jsSplitList sep cs with
    | [] => [[]]
    | h :: t => if c = sep then [] :: h :: t else (c :: h) :: t

/-- JavaScript `s.split(sep)` for a single-character separator. -/
def jsSplit (sep : Char) (s : String) : List String :=
  (jsSplitList sep s.data).map String.mk

/-- JavaScript `parts.join(sep)` for a single-character separator. -/
def jsJoin (sep : Char) : List String → String
  | [] => ""
  | [s] => s
  | s :: rest => s ++ String.mk [sep] ++ jsJoin sep rest

/-- JavaScript object assignment `acc[key] = value`: overwrite in place
if the key exists, else append. -/
def objInsert (acc : List (String × String)) (k v : String) : List (String × String) :=
  if acc.any (fun kv => kv.1 = k) then
    acc.map (fun kv => if kv.1 = k then (k, v) else kv)
  else acc ++ [(k, v)]

/-- Normalization of the `values` field (RosConnectionManager.tsx lines
93-102): array of pairs is reduced into an object, an object is copied
entrywise, anything else becomes the empty object. -/
def normalizeValues : InValues → List (String × String)
  | .arr l => l.foldl (fun acc kv => objInsert acc kv.1 kv.2) []
  | .obj l => l
  | .absent => []

/-- Severity-to-icon mapping (RosConnectionManager.tsx lines 105-111):
3 is info, 2 danger, 1 warning, anything else (including undefined)
success. -/
def iconOf (level : Option Int) : IconKind :=
  if level = some 3 then .info
  else if level = some 2 then .danger
  else if level = some 1 then .warning
  else .success

/-- Terminal-segment update (RosConnectionManager.tsx lines 87-112):
populate message (`message || ""`), severity_level (`level ?? -1`),
hardware_id (`hardware_id || null`), rawName (`= name`, the original
full record name), values and icon on the matched entry. -/
def applyTerminal (r : InRecord) (e : DiagEntry) : DiagEntry :=
  .mk e.name e.path r.name (r.message.getD "") (r.level.getD (-1))
    (match r.hardware_id with
     | some s => if s = "" then none else some s
     | none => none)
    (normalizeValues r.values) (some (iconOf r.level)) e.children

/-- Creation of a fresh entry for an unmatched segment
(RosConnectionManager.tsx lines 69-84): display name is the part after
`:` for a terminal segment with a non-empty suffix, else the part before
`:`; path is the joined prefix of raw parts cut at the first `:`;
rawName is initialized to path; severity -1, empty message, no children. -/
def mkNewEntry (_r : InRecord) (parts : List String) (part : String) (idx : Nat) : DiagEntry :=
  let pieces := jsSplit ':' part
  let baseName := pieces.headD ""
  let suffix := pieces[1]?
  let path := (jsSplit ':' (jsJoin '/' (parts.take (idx + 1)))).headD ""
  let nm := if idx = parts.length - 1 ∧ suffix.getD "" ≠ "" then suffix.getD "" else baseName
  .mk nm path path "" (-1) none [] none []

/-- Index of the first sibling whose display name equals the raw segment
(the `currentLevel.find(entry => entry.name === part)` lookup). -/
def firstMatch (part : String) : List DiagEntry → Option Nat
  | [] => none
  | e :: es => if e.name = part then some 0 else (firstMatch part es).map (· + 1)

/-- Total indexing into a sibling list. -/
def nodeAt (forest : List DiagEntry) (j : Nat) : DiagEntry := forest.getD j defaultEntry

/-- The `parts.forEach` walk of buildDiagnosticsTree
(RosConnectionManager.tsx lines 64-115) for one record: skip empty
parts; find the first sibling whose name equals the raw part, else
create and append a new entry; apply the terminal update when the
original index is the last; descend into that entry's children. -/
def insertLoop (r : InRecord) (parts : List String) :
    List String → Nat → List DiagEntry → List DiagEntry
  | [], _, forest => forest
  | part :: rest, idx, forest =>
    if part = "" then insertLoop r parts rest (idx + 1) forest
    else
      match firstMatch part forest with
      | some j =>
        let e := nodeAt forest j
        let e1 := if idx = parts.length - 1 then applyTerminal r e else e
        forest.set j (e1.setChildren (insertLoop r parts rest (idx + 1) e1.children))
      | none =>
        let e0 := mkNewEntry r parts part idx
        let e1 := if idx = parts.length - 1 then applyTerminal r e0 else e0
        forest ++ [e1.setChildren (insertLoop r parts rest (idx + 1) e1.children)]

/-- Insertion of one record: split its name on `/` and walk the forest. -/
def insertRecord (forest : List DiagEntry) (r : InRecord) : List DiagEntry :=
  insertLoop r (jsSplit '/' r.name) (jsSplit '/' r.name) 0 forest

/-- buildDiagnosticsTree (RosConnectionManager.tsx lines 57-119): fold
all records into an initially empty forest. -/
def buildDiagnosticsTree (records : List InRecord) : List DiagEntry :=
  records.foldl insertRecord []

mutual
/-- The `checkEntry` closure of calculateOverallLevel
(RosConnectionManager.tsx lines 44-49): raise the accumulator if this
entry's severity exceeds it, then visit all children. -/
def checkEntry (acc : Int) : DiagEntry → Int
  | .mk _ _ _ _ sev _ _ _ cs => checkForest (if sev > acc then sev else acc) cs

/-- The `forEach` over a sibling list inside calculateOverallLevel. -/
def checkForest (acc : Int) : List DiagEntry → Int
  | [] => acc
  | e :: es => checkForest (checkEntry acc e) es
end

/-- calculateOverallLevel (RosConnectionManager.tsx lines 41-53):
maxLevel starts at 0 and is raised by every strictly larger severity in
the forest. -/
def calculateOverallLevel (ds : List DiagEntry) : Int := checkForest 0 ds

mutual
/-- All severity levels occurring in one entry's subtree, in visit order. -/
def entrySevs : DiagEntry → List Int
  | .mk _ _ _ _ sev _ _ _ cs => sev :: forestSevs cs

/-- All severity levels occurring anywhere in a forest, in visit order. -/
def forestSevs : List DiagEntry → List Int
  | [] => []
  | e :: es => entrySevs e ++ forestSevs es
end

/-- The spec's phrase read literally: "the maximum severity_level found
anywhere in the entry forest, or 0 if forest is empty" — the true
maximum of the severities present, with no clamping at 0. -/
def specMaxFoundLevel (ds : List DiagEntry) : Int :=
  match forestSevs ds with
  | [] => 0
  | x :: xs => xs.foldl max x

/-- DiagnosticsStatus (src/interfaces.ts): one timestamped snapshot with
its aggregate level and entry forest. -/
structure DiagnosticsStatus where
  timestamp : Int
  level : Int
  diagnostics : List DiagEntry
deriving Repr

/-- HISTORY_SIZE (src/hooks/useDiagHistory.ts line 24). -/
def HISTORY_SIZE : Nat := 30

/-- updateDiagHistory (src/hooks/useDiagHistory.ts lines 38-50): append
the snapshot only when not paused, the status is non-null and its
diagnostics array is non-empty; afterwards keep only the last
HISTORY_SIZE entries (`slice(-HISTORY_SIZE)`). -/
def updateDiagHistory (isPaused : Bool) (diagStatusLatest : Option DiagnosticsStatus)
    (prevItems : List DiagnosticsStatus) : List DiagnosticsStatus :=
  match diagStatusLatest with
  | none => prevItems
  | some latest =>
    if isPaused = false ∧ 0 < latest.diagnostics.length then
      let updatedItems := prevItems ++ [latest]
      if HISTORY_SIZE < updatedItems.length then
        updatedItems.drop (updatedItems.length - HISTORY_SIZE)
      else updatedItems
    else prevItems

/-- clearDiagHistory (src/hooks/useDiagHistory.ts lines 34-36):
unconditionally empty the buffer. -/
def clearDiagHistory (_ : List DiagnosticsStatus) : List DiagnosticsStatus := []

/-- The application-level pause state and history buffer visible to the
pause/resume button (src/app.tsx). -/
structure AppHistState where
  buffer : List DiagnosticsStatus
  isPaused : Bool

/-- The pause/resume button's onClick (src/app.tsx lines 84-87):
`if (isPaused) clearDiagHistory(); setIsPaused(!isPaused);` — resuming
clears the buffer, pausing leaves it alone, and the flag is negated. -/
def pressPauseButton (st : AppHistState) : AppHistState :=
  ⟨if st.isPaused then clearDiagHistory st.buffer else st.buffer, !st.isPaused⟩

/-- State of one mounted RosConnectionManager effect: the two timeout
refs (`staleTimeoutId`, `retryTimeoutId`, initialized to 0), the
multiset of currently pending timer ids of each kind (so that a failure
to cancel would be observable as two pending timers), the id source for
`setTimeout`, the `retryConnection` flag, transport/subscription flags,
the count of `ros.connect` calls, and the history buffer with its pause
flag. -/
structure ConnState where
  nextId : Nat
  staleRef : Nat
  retryRef : Nat
  pendingStale : List Nat
  pendingRetry : List Nat
  retryConnection : Bool
  transportOpen : Bool
  subscribed : Bool
  connects : Nat
  history : List DiagnosticsStatus
  isPaused : Bool

/-- `clearTimeout(ref)`: the timer with that id (if still pending) is
cancelled. -/
def clearTimeoutP (pending : List Nat) (ref : Nat) : List Nat :=
  pending.filter (fun x => x ≠ ref)

/-- connectToWebSocket (RosConnectionManager.tsx lines 150-153): clear
both timeouts, then call `ros.connect(url)`. -/
def connectStep (s : ConnState) : ConnState :=
  { s with pendingStale := clearTimeoutP s.pendingStale s.staleRef,
           pendingRetry := clearTimeoutP s.pendingRetry s.retryRef,
           transportOpen := true,
           connects := s.connects + 1 }

/-- Events driving the connection manager: transport close, the retry
timer firing, the stale-data timer firing, the connection event, effect
cleanup, the pause button, and an inbound diagnostics message carrying a
header stamp and a status array. -/
inductive ConnEv : Type where
  | closeEvt | retryFire | staleFire | connEvt | unmount | pauseToggle
  | msg (stamp : Int) (records : List InRecord)

/-- One step of the connection manager (RosConnectionManager.tsx):
- close handler (lines 217-227): report disconnected, clear history,
  clear both timeouts, and when retries are enabled schedule exactly one
  new reconnect timer, storing its id in the ref;
- retry timer firing: the pending timer is consumed and
  connectToWebSocket runs;
- stale timer firing (lines 204-207): the pending timer is consumed and
  the history is cleared; the transport and subscription are untouched;
- connection handler (lines 155-210): clear history and subscribe;
- cleanup (lines 233-240): unsubscribe, disable retries, clear both
  timeouts, close the transport;
- the pause button (app.tsx lines 84-87);
- message delivery (lines 160-208): only while subscribed: clear the
  stale timeout, build the tree, wrap it with the stamp and overall
  level, feed it to updateDiagHistory (reading the pause flag at call
  time), and arm a fresh stale timer. -/
def stepConn (ev : ConnEv) (s : ConnState) : ConnState :=
  match ev with
  | .closeEvt =>
    let s1 := { s with transportOpen := false,
                       history := clearDiagHistory s.history,
                       pendingStale := clearTimeoutP s.pendingStale s.staleRef,
                       pendingRetry := clearTimeoutP s.pendingRetry s.retryRef }
    if s1.retryConnection then
      { s1 with pendingRetry := s1.pendingRetry ++ [s1.nextId],
                retryRef := s1.nextId, nextId := s1.nextId + 1 }
    else s1
  | .retryFire =>
    match s.pendingRetry with
    | [] => s
    | _ :: rest => connectStep { s with pendingRetry := rest }
  | .staleFire =>
    match s.pendingStale with
    | [] => s
    | _ :: rest => { s with pendingStale := rest, history := clearDiagHistory s.history }
  | .connEvt =>
    if s.transportOpen then
      { s with history := clearDiagHistory s.history, subscribed := true }
    else s
  | .unmount =>
    { s with subscribed := false, retryConnection := false,
             pendingStale := clearTimeoutP s.pendingStale s.staleRef,
             pendingRetry := clearTimeoutP s.pendingRetry s.retryRef,
             transportOpen := false }
  | .pauseToggle =>
    { s with history := if s.isPaused then clearDiagHistory s.history else s.history,
             isPaused := !s.isPaused }
  | .msg stamp records =>
    if s.subscribed then
      let tree := buildDiagnosticsTree records
      let snapshot : DiagnosticsStatus := ⟨stamp, calculateOverallLevel tree, tree⟩
      { s with history := updateDiagHistory s.isPaused (some snapshot) s.history,
               pendingStale := clearTimeoutP s.pendingStale s.staleRef ++ [s.nextId],
               staleRef := s.nextId, nextId := s.nextId + 1 }
    else s

/-- State right after the effect runs (refs initialized to 0,
retryConnection true, then connectToWebSocket()). -/
def initConn : ConnState :=
  connectStep
    { nextId := 1, staleRef := 0, retryRef := 0, pendingStale := [], pendingRetry := [],
      retryConnection := true, transportOpen := false, subscribed := false,
      connects := 0, history := [], isPaused := false }

/-- Run a list of events from the initial state. -/
def runConn (evs : List ConnEv) : ConnState :=
  evs.foldl (fun s e => stepConn e s) initConn

/-- A state is reachable when some event sequence produces it. -/
def ReachableConn (s : ConnState) : Prop := ∃ evs, runConn evs = s

/-- Timer discipline: each pending-timer multiset is empty or exactly
the timer currently stored in the corresponding ref. -/
def TimerInv (s : ConnState) : Prop :=
  (s.pendingRetry = [] ∨ s.pendingRetry = [s.retryRef])
  ∧ (s.pendingStale = [] ∨ s.pendingStale = [s.staleRef])

/-- Listener registry of the connection implementation: the ordered list
of (event name, handler) registrations.  Handlers are abstracted to
numeric identities. -/
structure EmitterModel where
  handlers : List (String × Nat)
deriving DecidableEq, Repr

/-- Modelled from the spec: the `Impl` class (src/roslib/Impl.ts) is
referenced by src/roslib/Ros.ts but is not among the provided sources.
Per section 4.1, each `connect(url)` installs a fresh implementation
owning one socket for that url and a fresh listener registry
(`emitter`) supporting multiple listeners per named lifecycle event. -/
structure ImplModel where
  url : String
  emitter : EmitterModel
deriving DecidableEq, Repr

/-- Modelled from the spec: a fresh implementation has no registered
listeners. -/
def ImplModel.fresh (url : String) : ImplModel := ⟨url, ⟨[]⟩⟩

/-- Modelled from the spec: `emitter.on(event, fn)` appends one
registration for that event. -/
def ImplModel.emitterOn (i : ImplModel) (event : String) (fn : Nat) : ImplModel :=
  ⟨i.url, ⟨i.emitter.handlers ++ [(event, fn)]⟩⟩

/-- The Ros facade (src/roslib/Ros.ts): it holds `#rosImpl`, an optional
implementation. -/
structure Ros where
  rosImpl : Option ImplModel
deriving DecidableEq, Repr

/-- Ros.connect (Ros.ts lines 57-59): replace the implementation with a
fresh one for the url. -/
def Ros.connect (_s : Ros) (url : String) : Ros :=
  ⟨some (ImplModel.fresh url)⟩

/-- Ros constructor (Ros.ts lines 30-34): connect right away when a url
option is given. -/
def Ros.construct (url : Option String) : Ros :=
  match url with
  | some u => Ros.connect ⟨none⟩ u
  | none => ⟨none⟩

/-- Ros.on (Ros.ts lines 41-47): `this.rosImpl?.emitter.on(event, fn)` —
register on the current implementation if one exists, otherwise do
nothing. -/
def Ros.on (s : Ros) (event : String) (fn : Nat) : Ros :=
  match s.rosImpl with
  | none => s
  | some i => ⟨some (i.emitterOn event fn)⟩

/-- Ros.close (Ros.ts lines 61-64): drop the implementation. -/
def Ros.close (_s : Ros) : Ros := ⟨none⟩

/-- Modelled from the spec: the handlers an event dispatch would invoke
are exactly the ones registered for that event on the current
implementation; with no implementation nothing is invoked. -/
def invokedHandlers (s : Ros) (event : String) : List Nat :=
  match s.rosImpl with
  | none => []
  | some i => (i.emitter.handlers.filter (fun h => h.1 = event)).map (fun h => h.2)

/-- A segment is groupable when it is non-empty and contains no colon. -/
def GoodSeg (s : String) : Prop := s ≠ "" ∧ ':' ∉ s.data

/-- Follow a chain of display names down the forest, taking at each
depth the first sibling whose name matches (the builder's own matching
rule), and return the list of sibling positions visited. -/
def chainFollow : List String → List DiagEntry → Option (List Nat)
  | [], _ => some []
  | seg :: segs, forest =>
    match firstMatch seg forest with
    | none => none
    | some j =>
      match chainFollow segs (nodeAt forest j).children with
      | none => none
      | some p => some (j :: p)

/-- The non-empty path segments of a record's name (empty parts are
skipped by the builder's walk). -/
def nonemptySegs (r : InRecord) : List String :=
  (jsSplit '/' r.name).filter (fun s => s ≠ "")

/-- Record used in claim C1: a lone name with a display-name override. -/
def recC1 : InRecord := ⟨"a/b:c", none, none, none, .absent⟩

/-- First record of the C5 scenario. -/
def recC5a : InRecord := ⟨"/robot/battery", some "OK", some 0, none, .absent⟩

/-- Second record of the C5 scenario. -/
def recC5b : InRecord := ⟨"/robot/battery/cell1", some "Low", some 1, none, .absent⟩

/-- First record of the C3 counterexample: first segment `a:x`. -/
def recC3a : InRecord := ⟨"a:x/c", none, none, none, .absent⟩

/-- Second record of the C3 counterexample: same first segment `a:x`. -/
def recC3b : InRecord := ⟨"a:x/d", none, none, none, .absent⟩

/-- Records used by the C3 witness. -/
def recW1 : InRecord := ⟨"a/b", none, none, none, .absent⟩

/-- Second record used by the C3 witness. -/
def recW2 : InRecord := ⟨"a/c", none, none, none, .absent⟩

/-- First (head) element of a forest, for stating concrete claims. -/
def topOf (l : List DiagEntry) : DiagEntry := l.headD defaultEntry

/-- A concrete non-empty snapshot used in witnesses. -/
def stW : DiagnosticsStatus := ⟨0, 0, [defaultEntry]⟩

/-- A concrete connection state with one pending stale timer, used in
the C8 witness. -/
def c8State : ConnState :=
  { nextId := 2, staleRef := 1, retryRef := 0, pendingStale := [1], pendingRetry := [],
    retryConnection := true, transportOpen := true, subscribed := true,
    connects := 1, history := [stW], isPaused := false }

/-
Theorems.  Helper lemmas come first, then one theorem per claim
(with a counterexample and an amended theorem where the claim fails on
the code, and a witness where a theorem carries hypotheses).
-/

theorem ifMax (a s : Int) : (if s > a then s else a) = max a s := by
  rcases le_or_lt s a with h | h
  · rw [if_neg (not_lt.mpr h), max_eq_left h]
  · rw [if_pos h, max_eq_right h.le]

theorem checkForest_foldl (acc : Int) (es : List DiagEntry) :
    checkForest acc es = (forestSevs es).foldl max acc := by
  refine checkForest.induct
    (fun acc e => checkEntry acc e = (entrySevs e).foldl max acc)
    (fun acc es => checkForest acc es = (forestSevs es).foldl max acc)
    ?_ ?_ ?_ acc es
  · intro acc n p r m sev hw v ic cs ih
    rw [checkEntry, entrySevs, List.foldl_cons, ih, ifMax]
  · intro acc
    rw [checkForest, forestSevs, List.foldl_nil]
  · intro acc e es ih1 ih2
    rw [checkForest, forestSevs, List.foldl_append, ih2, ih1]

/-- Claim C2 (counterexample): for the one-node forest holding only a
synthetic entry of severity -1, the maximum severity found anywhere in
the forest is -1, but calculateOverallLevel returns 0 — the code clamps
the aggregate at 0, so it is not the maximum severity found. -/
theorem C2_counterexample :
    calculateOverallLevel [defaultEntry] ≠ specMaxFoundLevel [defaultEntry] := by decide

/-- Claim C2 (amended): the aggregate level equals the maximum of 0 and
all severity levels found anywhere in the forest (severities below 0 are
clamped away by the 0 start), and in particular equals 0 on the empty
forest. -/
theorem C2_amended_thm (ds : List DiagEntry) :
    calculateOverallLevel ds = (forestSevs ds).foldl max 0 := by
  rw [calculateOverallLevel, checkForest_foldl]

/-- Claim C1 (counterexample): for the single record named "a/b:c" the
produced leaf's rawName is the original full name "a/b:c" (the terminal
update overwrites rawName with the record's name), not "a/b" as the
claim states. -/
theorem C1_counterexample :
    (topOf ((topOf (buildDiagnosticsTree [recC1])).children)).rawName ≠ "a/b" := by decide

/-- Claim C1 (amended): the single record "a/b:c" produces one top-level
node named "a" with exactly one child whose display name is "c" and
whose path is "a/b"; the child's rawName however is the original name
"a/b:c". -/
theorem C1_amended_thm :
    (buildDiagnosticsTree [recC1]).length = 1
    ∧ (topOf (buildDiagnosticsTree [recC1])).name = "a"
    ∧ ((topOf (buildDiagnosticsTree [recC1])).children).length = 1
    ∧ (topOf ((topOf (buildDiagnosticsTree [recC1])).children)).name = "c"
    ∧ (topOf ((topOf (buildDiagnosticsTree [recC1])).children)).path = "a/b"
    ∧ (topOf ((topOf (buildDiagnosticsTree [recC1])).children)).rawName = "a/b:c" := by
  refine ⟨?_, ?_, ?_, ?_, ?_, ?_⟩ <;> decide

/-- Claim C5: the two-record scenario builds exactly one top-level entry
"robot", synthetic with severity -1, whose child "battery" carries
severity 0 and message "OK" and has one child "cell1" with severity 1
and message "Low"; the aggregate level of the forest is 1. -/
theorem C5_thm :
    buildDiagnosticsTree [recC5a, recC5b] =
      [.mk "robot" "/robot" "/robot" "" (-1) none [] none
        [.mk "battery" "/robot/battery" "/robot/battery" "OK" 0 none [] (some .success)
          [.mk "cell1" "/robot/battery/cell1" "/robot/battery/cell1" "Low" 1 none []
            (some .warning) []]]]
    ∧ calculateOverallLevel (buildDiagnosticsTree [recC5a, recC5b]) = 1 :=
  ⟨rfl, by decide⟩

theorem updateDiagHistory_append (st : DiagnosticsStatus) (buf : List DiagnosticsStatus)
    (h : st.diagnostics ≠ []) :
    updateDiagHistory false (some st) buf
      = (buf ++ [st]).drop (buf.length + 1 - HISTORY_SIZE) := by
  have hlen : 0 < st.diagnostics.length := List.length_pos.mpr h
  rw [updateDiagHistory]
  rw [if_pos (And.intro rfl hlen)]
  simp only [List.length_append, List.length_singleton]
  split
  · rfl
  · have h0 : buf.length + 1 - HISTORY_SIZE = 0 := by omega
    rw [h0, List.drop_zero]

theorem foldl_updateDiagHistory (ss : List DiagnosticsStatus) :
    ∀ buf : List DiagnosticsStatus, (∀ s ∈ ss, s.diagnostics ≠ []) →
      buf.length ≤ HISTORY_SIZE →
      ss.foldl (fun b s => updateDiagHistory false (some s) b) buf
        = (buf ++ ss).drop (buf.length + ss.length - HISTORY_SIZE) := by
  induction ss with
  | nil =>
    intro buf _ hb
    simp only [List.foldl_nil, List.append_nil, List.length_nil]
    have h0 : buf.length + 0 - HISTORY_SIZE = 0 := by omega
    rw [h0, List.drop_zero]
  | cons s ss ih =>
    intro buf hall hb
    have hs : s.diagnostics ≠ [] := hall s (by simp)
    have hall2 : ∀ x ∈ ss, x.diagnostics ≠ [] := fun x hx => hall x (by simp [hx])
    rw [List.foldl_cons, updateDiagHistory_append s buf hs]
    by_cases hlt : buf.length + 1 ≤ HISTORY_SIZE
    · have h0 : buf.length + 1 - HISTORY_SIZE = 0 := by omega
      rw [h0, List.drop_zero,
        ih (buf ++ [s]) hall2
          (by simp only [List.length_append, List.length_singleton]; omega)]
      rw [show (buf ++ [s]) ++ ss = buf ++ s :: ss from by simp]
      congr 1
      simp only [List.length_append, List.length_singleton, List.length_cons, List.length_nil]
      omega
    · have h1 : buf.length + 1 - HISTORY_SIZE = 1 := by omega
      rw [h1,
        ih ((buf ++ [s]).drop 1) hall2
          (by
            simp only [List.length_drop, List.length_append, List.length_singleton]
            omega)]
      rw [show ((buf ++ [s]).drop 1) ++ ss = ((buf ++ [s]) ++ ss).drop 1 from
        (List.drop_append_of_le_length (by simp)).symm]
      rw [List.drop_drop]
      rw [show (buf ++ [s]) ++ ss = buf ++ s :: ss from by simp]
      congr 1
      simp only [List.length_drop, List.length_append, List.length_singleton, List.length_cons,
        List.length_nil]
      omega


/-- Claim C4: the history never exceeds HISTORY_SIZE = 30 (one update on
a buffer within capacity stays within capacity), and after N+k
non-paused, non-null, non-empty updates from the empty buffer the buffer
is exactly the last N delivered snapshots in arrival order (and has
length exactly N). -/
theorem C4_thm :
    (∀ (isPaused : Bool) (status : Option DiagnosticsStatus) (buf : List DiagnosticsStatus),
        buf.length ≤ HISTORY_SIZE → (updateDiagHistory isPaused status buf).length ≤ HISTORY_SIZE)
    ∧ (∀ ss : List DiagnosticsStatus, (∀ s ∈ ss, s.diagnostics ≠ []) →
        HISTORY_SIZE ≤ ss.length →
        ss.foldl (fun b s => updateDiagHistory false (some s) b) []
            = ss.drop (ss.length - HISTORY_SIZE)
        ∧ (ss.foldl (fun b s => updateDiagHistory false (some s) b) []).length
            = HISTORY_SIZE) := by
  constructor
  · intro isPaused status buf hb
    match status with
    | none => simpa [updateDiagHistory] using hb
    | some st =>
      simp only [updateDiagHistory]
      split
      · split
        · simp only [List.length_drop, List.length_append, List.length_singleton]
          omega
        · simp only [List.length_append, List.length_singleton] at *
          omega
      · exact hb
  · intro ss hall hlen
    have h := foldl_updateDiagHistory ss [] hall (by simp)
    simp only [List.nil_append, List.length_nil, Nat.zero_add] at h
    refine ⟨h, ?_⟩
    rw [h]
    simp only [List.length_drop]
    omega

/-- Claim C4 witness: 31 consecutive non-empty updates from the empty
buffer leave exactly the last 30 snapshots, in order. -/
theorem C4_thm_witness :
    (List.replicate 31 stW).foldl (fun b s => updateDiagHistory false (some s) b) []
        = (List.replicate 31 stW).drop 1
    ∧ ((List.replicate 31 stW).foldl (fun b s => updateDiagHistory false (some s) b) []).length
        = HISTORY_SIZE := by
  have h := C4_thm.2 (List.replicate 31 stW)
    (by
      intro s hs
      rw [List.eq_of_mem_replicate hs]
      simp [stW])
    (by simp [HISTORY_SIZE])
  simpa [HISTORY_SIZE] using h

/-- Claim C6: updateDiagHistory is a no-op whenever the pause flag read
at call time is true, or the status is null, or its diagnostics list is
empty; in every other case it appends the status at the back, evicting
from the front exactly when capacity would be exceeded. -/
theorem C6_thm (isPaused : Bool) (status : Option DiagnosticsStatus)
    (buf : List DiagnosticsStatus) :
    ((isPaused = true ∨ status = none ∨ ∃ st, status = some st ∧ st.diagnostics = []) →
        updateDiagHistory isPaused status buf = buf)
    ∧ (∀ st, status = some st → isPaused = false → st.diagnostics ≠ [] →
        updateDiagHistory isPaused status buf
          = (buf ++ [st]).drop (buf.length + 1 - HISTORY_SIZE)) := by
  constructor
  · intro h
    rcases h with hp | hn | ⟨st, hst, hd⟩
    · subst hp
      match status with
      | none => rw [updateDiagHistory]
      | some st =>
        rw [updateDiagHistory, if_neg]
        intro hcontra
        exact absurd hcontra.1 (by simp)
    · subst hn
      rw [updateDiagHistory]
    · subst hst
      rw [updateDiagHistory, if_neg]
      intro hcontra
      rw [hd] at hcontra
      exact absurd hcontra.2 (by simp)
  · intro st hst hp hd
    subst hst
    subst hp
    exact updateDiagHistory_append st buf hd

/-- Claim C6 witness: a paused update is a no-op and an unpaused,
non-empty update appends. -/
theorem C6_thm_witness :
    updateDiagHistory true (some stW) [] = []
    ∧ updateDiagHistory false (some stW) [] = [stW] := by
  constructor
  · exact (C6_thm true (some stW) []).1 (Or.inl rfl)
  · have h := (C6_thm false (some stW) []).2 stW rfl rfl (by simp [stW])
    simpa [HISTORY_SIZE] using h

/-- Claim C9 (counterexample): pressing the pause/resume control in the
paused state (that is, resuming) empties a non-empty buffer, so toggling
the flag does not leave the buffer unchanged in both directions. -/
theorem C9_counterexample :
    (pressPauseButton ⟨[stW], true⟩).buffer ≠ [stW] := by
  simp [pressPauseButton, clearDiagHistory]

/-- Claim C9 (amended): pressing the control while not paused (pausing)
leaves the buffer unchanged; pressing it while paused (resuming) clears
the buffer before unpausing; and the flag itself only gates future
updates — any update made with the flag set is a no-op on the buffer. -/
theorem C9_amended_thm (st : AppHistState) :
    (st.isPaused = false → (pressPauseButton st).buffer = st.buffer)
    ∧ (st.isPaused = true → (pressPauseButton st).buffer = [])
    ∧ (∀ status, updateDiagHistory true status st.buffer = st.buffer) := by
  refine ⟨?_, ?_, ?_⟩
  · intro h
    simp [pressPauseButton, h]
  · intro h
    simp [pressPauseButton, h, clearDiagHistory]
  · intro status
    match status with
    | none => rw [updateDiagHistory]
    | some x =>
      rw [updateDiagHistory, if_neg]
      intro hcontra
      exact absurd hcontra.1 (by simp)

/-- Claim C9 witness: pausing with a one-element buffer keeps the
buffer, and a paused update is a no-op on it. -/
theorem C9_amended_thm_witness :
    (pressPauseButton ⟨[stW], false⟩).buffer = [stW]
    ∧ updateDiagHistory true (some stW) [stW] = [stW] :=
  ⟨(C9_amended_thm ⟨[stW], false⟩).1 rfl, (C9_amended_thm ⟨[stW], false⟩).2.2 (some stW)⟩

theorem clearTimeoutP_sub (l : List Nat) (r : Nat) (h : l = [] ∨ l = [r]) :
    clearTimeoutP l r = [] := by
  rcases h with h | h <;> subst h <;> simp [clearTimeoutP]

theorem timerInv_step (ev : ConnEv) (s : ConnState) (h : TimerInv s) :
    TimerInv (stepConn ev s) := by
  obtain ⟨hr, hst⟩ := h
  cases ev with
  | closeEvt =>
    simp only [stepConn]
    split
    · exact ⟨Or.inr (by rw [clearTimeoutP_sub _ _ hr]; rfl),
        Or.inl (by rw [clearTimeoutP_sub _ _ hst])⟩
    · exact ⟨Or.inl (by rw [clearTimeoutP_sub _ _ hr]),
        Or.inl (by rw [clearTimeoutP_sub _ _ hst])⟩
  | retryFire =>
    rcases hr with hr | hr
    · simp only [stepConn, hr]
      exact ⟨Or.inl hr, hst⟩
    · simp only [stepConn, hr]
      exact ⟨Or.inl (by simp [connectStep, clearTimeoutP]),
        Or.inl (by simp only [connectStep]; rw [clearTimeoutP_sub _ _ hst])⟩
  | staleFire =>
    rcases hst with hst | hst
    · simp only [stepConn, hst]
      exact ⟨hr, Or.inl hst⟩
    · simp only [stepConn, hst]
      exact ⟨hr, Or.inl rfl⟩
  | connEvt =>
    simp only [stepConn]
    split
    · exact ⟨hr, hst⟩
    · exact ⟨hr, hst⟩
  | unmount =>
    exact ⟨Or.inl (by simp only [stepConn]; rw [clearTimeoutP_sub _ _ hr]),
      Or.inl (by simp only [stepConn]; rw [clearTimeoutP_sub _ _ hst])⟩
  | pauseToggle =>
    exact ⟨hr, hst⟩
  | msg stamp records =>
    simp only [stepConn]
    split
    · exact ⟨hr, Or.inr (by rw [clearTimeoutP_sub _ _ hst]; rfl)⟩
    · exact ⟨hr, hst⟩

theorem timerInv_run (evs : List ConnEv) :
    ∀ s, TimerInv s → TimerInv (evs.foldl (fun t e => stepConn e t) s) := by
  induction evs with
  | nil => intro s h; exact h
  | cons e evs ih => intro s h; exact ih _ (timerInv_step e s h)

theorem timerInv_init : TimerInv initConn := ⟨Or.inl rfl, Or.inl rfl⟩

theorem timerInv_reachable (s : ConnState) (h : ReachableConn s) : TimerInv s := by
  obtain ⟨evs, hev⟩ := h
  rw [← hev]
  exact timerInv_run evs initConn timerInv_init

theorem closeStep_fields (s : ConnState) (hr : s.retryConnection = true) (hInv : TimerInv s) :
    (stepConn ConnEv.closeEvt s).pendingRetry = [s.nextId]
    ∧ (stepConn ConnEv.closeEvt s).retryRef = s.nextId
    ∧ (stepConn ConnEv.closeEvt s).retryConnection = true
    ∧ (stepConn ConnEv.closeEvt s).connects = s.connects
    ∧ TimerInv (stepConn ConnEv.closeEvt s) := by
  have hpr : clearTimeoutP s.pendingRetry s.retryRef = [] := clearTimeoutP_sub _ _ hInv.1
  have hps : clearTimeoutP s.pendingStale s.staleRef = [] := clearTimeoutP_sub _ _ hInv.2
  refine ⟨?_, ?_, ?_, ?_, Or.inr ?_, Or.inl ?_⟩ <;>
    simp [stepConn, hr, hpr, hps]

theorem closes_iterate (n : Nat) :
    ∀ s : ConnState, TimerInv s → s.retryConnection = true →
      ((stepConn ConnEv.closeEvt)^[n + 1] s).pendingRetry
          = [((stepConn ConnEv.closeEvt)^[n + 1] s).retryRef]
      ∧ TimerInv ((stepConn ConnEv.closeEvt)^[n + 1] s)
      ∧ ((stepConn ConnEv.closeEvt)^[n + 1] s).retryConnection = true
      ∧ ((stepConn ConnEv.closeEvt)^[n + 1] s).connects = s.connects := by
  induction n with
  | zero =>
    intro s hInv hr
    obtain ⟨h1, h2, h3, h4, h5⟩ := closeStep_fields s hr hInv
    rw [Function.iterate_one]
    exact ⟨by rw [h1, h2], h5, h3, h4⟩
  | succ n ih =>
    intro s hInv hr
    obtain ⟨h1, h2, h3, h4, h5⟩ := closeStep_fields s hr hInv
    have hi := ih (stepConn ConnEv.closeEvt s) h5 h3
    rw [Function.iterate_succ_apply]
    exact ⟨hi.1, hi.2.1, hi.2.2.1, by rw [hi.2.2.2, h4]⟩

theorem retryFire_connects (s : ConnState) (h : s.pendingRetry = [s.retryRef]) :
    (stepConn ConnEv.retryFire s).connects = s.connects + 1
    ∧ (stepConn ConnEv.retryFire s).pendingRetry = [] := by
  simp only [stepConn, h]
  exact ⟨rfl, by simp [connectStep, clearTimeoutP]⟩

/-- Claim C7: in every reachable state of the connection manager at most
one reconnect timer is pending (the close handler always clears the
previous timer before scheduling a new one), and from any reachable
state with retries enabled, any burst of n+1 close events leaves exactly
one pending reconnect timer whose firing performs exactly one new
connect call and leaves no pending reconnect timer. -/
theorem C7_thm (s : ConnState) (hs : ReachableConn s) :
    s.pendingRetry.length ≤ 1
    ∧ (s.retryConnection = true → ∀ n : Nat,
        ((stepConn ConnEv.closeEvt)^[n + 1] s).pendingRetry.length = 1
        ∧ (stepConn ConnEv.retryFire ((stepConn ConnEv.closeEvt)^[n + 1] s)).connects
            = s.connects + 1
        ∧ (stepConn ConnEv.retryFire ((stepConn ConnEv.closeEvt)^[n + 1] s)).pendingRetry
            = []) := by
  have hInv := timerInv_reachable s hs
  constructor
  · rcases hInv.1 with h | h <;> simp [h]
  · intro hr n
    obtain ⟨h1, h2, h3, h4⟩ := closes_iterate n s hInv hr
    obtain ⟨hc, hp⟩ := retryFire_connects _ h1
    exact ⟨by rw [h1]; rfl, by rw [hc, h4], hp⟩

/-- Claim C7 witness: from the freshly mounted state, one close event
leaves one pending reconnect timer and its firing yields exactly one new
connect call. -/
theorem C7_thm_witness :
    initConn.pendingRetry.length ≤ 1
    ∧ ((stepConn ConnEv.closeEvt)^[1] initConn).pendingRetry.length = 1
    ∧ (stepConn ConnEv.retryFire ((stepConn ConnEv.closeEvt)^[1] initConn)).connects
        = initConn.connects + 1
    ∧ (stepConn ConnEv.retryFire ((stepConn ConnEv.closeEvt)^[1] initConn)).pendingRetry
        = [] := by
  have h := C7_thm initConn ⟨[], rfl⟩
  have h2 := h.2 rfl 0
  exact ⟨h.1, h2.1, h2.2.1, h2.2.2⟩

/-- Claim C8: when the stale-data timer fires, the history is cleared
but the transport stays open and the topic stays subscribed, and a
subsequent valid (non-empty) message is processed and appended to the
history normally. -/
theorem C8_thm (s : ConnState) (hstale : s.pendingStale ≠ [])
    (hsub : s.subscribed = true) (hp : s.isPaused = false)
    (stamp : Int) (records : List InRecord)
    (hne : buildDiagnosticsTree records ≠ []) :
    (stepConn ConnEv.staleFire s).history = []
    ∧ (stepConn ConnEv.staleFire s).transportOpen = s.transportOpen
    ∧ (stepConn ConnEv.staleFire s).subscribed = s.subscribed
    ∧ (stepConn (ConnEv.msg stamp records) (stepConn ConnEv.staleFire s)).history
        = [⟨stamp, calculateOverallLevel (buildDiagnosticsTree records),
            buildDiagnosticsTree records⟩] := by
  obtain ⟨x, rest, hx⟩ : ∃ x rest, s.pendingStale = x :: rest := by
    cases hps : s.pendingStale with
    | nil => exact absurd hps hstale
    | cons a l => exact ⟨a, l, rfl⟩
  have hs1 : stepConn ConnEv.staleFire s = { s with pendingStale := rest, history := [] } := by
    simp only [stepConn, hx, clearDiagHistory]
  refine ⟨by rw [hs1], by rw [hs1], by rw [hs1], ?_⟩
  rw [hs1]
  simp only [stepConn, hsub, hp, if_true]
  rw [updateDiagHistory_append _ [] hne]
  simp [HISTORY_SIZE]

/-- Claim C8 witness: a concrete state with one pending stale timer,
cleared by the firing, then restored by the next message. -/
theorem C8_thm_witness :
    (stepConn ConnEv.staleFire c8State).history = []
    ∧ (stepConn ConnEv.staleFire c8State).transportOpen = c8State.transportOpen
    ∧ (stepConn ConnEv.staleFire c8State).subscribed = c8State.subscribed
    ∧ (stepConn (ConnEv.msg 7 [recW1]) (stepConn ConnEv.staleFire c8State)).history
        = [⟨7, calculateOverallLevel (buildDiagnosticsTree [recW1]),
            buildDiagnosticsTree [recW1]⟩] := by
  refine C8_thm c8State (by simp [c8State]) rfl rfl 7 [recW1] ?_
  intro hcontra
  have hlen : (buildDiagnosticsTree [recW1]).length = 1 := by decide
  rw [hcontra] at hlen
  simp at hlen

/-- Claim C10: Ros.on registers the handler only on the implementation
present at call time — with no implementation (never connected, or
closed last) the call changes nothing and nothing would ever invoke the
handler — and a later connect installs a fresh implementation carrying
no previously registered handlers. -/
theorem C10_thm (s : Ros) (event : String) (fn : Nat) :
    (s.rosImpl = none → Ros.on s event fn = s)
    ∧ (∀ i, s.rosImpl = some i →
        (Ros.on s event fn).rosImpl
          = some ⟨i.url, ⟨i.emitter.handlers ++ [(event, fn)]⟩⟩)
    ∧ (∀ url, (Ros.connect s url).rosImpl = some ⟨url, ⟨[]⟩⟩)
    ∧ (∀ url e, invokedHandlers (Ros.connect s url) e = [])
    ∧ (Ros.on (Ros.close s) event fn = Ros.close s) := by
  refine ⟨?_, ?_, ?_, ?_, ?_⟩
  · intro h
    simp [Ros.on, h]
  · intro i h
    simp [Ros.on, h, ImplModel.emitterOn]
  · intro url
    simp [Ros.connect, ImplModel.fresh]
  · intro url e
    simp [invokedHandlers, Ros.connect, ImplModel.fresh]
  · simp [Ros.close, Ros.on]

/-- Claim C10 witness: a never-connected Ros ignores `on`, and a fresh
connect produces an implementation with no handlers and nothing to
invoke. -/
theorem C10_thm_witness :
    Ros.on (Ros.construct none) "close" 7 = Ros.construct none
    ∧ (Ros.connect (Ros.construct none) "ws://u").rosImpl = some ⟨"ws://u", ⟨[]⟩⟩
    ∧ invokedHandlers (Ros.connect (Ros.construct none) "ws://u") "close" = [] := by
  have h := C10_thm (Ros.construct none) "close" 7
  exact ⟨h.1 rfl, h.2.2.1 "ws://u", h.2.2.2.1 "ws://u" "close"⟩

theorem name_setChildren (e : DiagEntry) (cs : List DiagEntry) :
    (e.setChildren cs).name = e.name := by
  cases e
  rfl

theorem children_setChildren (e : DiagEntry) (cs : List DiagEntry) :
    (e.setChildren cs).children = cs := by
  cases e
  rfl

theorem name_applyTerminal (r : InRecord) (e : DiagEntry) :
    (applyTerminal r e).name = e.name := rfl

theorem children_applyTerminal (r : InRecord) (e : DiagEntry) :
    (applyTerminal r e).children = e.children := rfl

theorem nodeAt_cons_zero (e : DiagEntry) (es : List DiagEntry) :
    nodeAt (e :: es) 0 = e := rfl

theorem nodeAt_cons_succ (e : DiagEntry) (es : List DiagEntry) (j : Nat) :
    nodeAt (e :: es) (j + 1) = nodeAt es j := rfl

theorem firstMatch_lt (part : String) :
    ∀ (F : List DiagEntry) (j : Nat), firstMatch part F = some j → j < F.length := by
  intro F
  induction F with
  | nil => intro j h; exact absurd h (by simp [firstMatch])
  | cons e es ih =>
    intro j h
    rw [firstMatch] at h
    split at h
    · cases h
      simp
    · obtain ⟨j0, hj0, hj⟩ := Option.map_eq_some'.mp h
      subst hj
      have := ih j0 hj0
      simp only [List.length_cons]
      omega

theorem firstMatch_name (part : String) :
    ∀ (F : List DiagEntry) (j : Nat), firstMatch part F = some j →
      (nodeAt F j).name = part := by
  intro F
  induction F with
  | nil => intro j h; exact absurd h (by simp [firstMatch])
  | cons e es ih =>
    intro j h
    rw [firstMatch] at h
    split at h
    · cases h
      rw [nodeAt_cons_zero]
      assumption
    · obtain ⟨j0, hj0, hj⟩ := Option.map_eq_some'.mp h
      subst hj
      rw [nodeAt_cons_succ]
      exact ih j0 hj0

theorem nodeAt_set_self :
    ∀ (F : List DiagEntry) (j : Nat) (x : DiagEntry), j < F.length →
      nodeAt (F.set j x) j = x := by
  intro F
  induction F with
  | nil => intro j x h; exact absurd h (by simp)
  | cons e es ih =>
    intro j x h
    cases j with
    | zero => rfl
    | succ j =>
      rw [List.set_cons_succ, nodeAt_cons_succ]
      exact ih j x (by simp at h; omega)

theorem nodeAt_set_ne :
    ∀ (F : List DiagEntry) (j j' : Nat) (x : DiagEntry), j' ≠ j →
      nodeAt (F.set j x) j' = nodeAt F j' := by
  intro F
  induction F with
  | nil => intro j j' x _; rfl
  | cons e es ih =>
    intro j j' x hne
    cases j with
    | zero =>
      cases j' with
      | zero => exact absurd rfl hne
      | succ j' => rfl
    | succ j =>
      cases j' with
      | zero => rfl
      | succ j' =>
        rw [List.set_cons_succ, nodeAt_cons_succ, nodeAt_cons_succ]
        exact ih j j' x (by omega)

theorem firstMatch_set_name :
    ∀ (F : List DiagEntry) (j : Nat) (x : DiagEntry),
      x.name = (nodeAt F j).name →
      ∀ s, firstMatch s (F.set j x) = firstMatch s F := by
  intro F
  induction F with
  | nil => intro j x _ s; rfl
  | cons e es ih =>
    intro j x hx s
    cases j with
    | zero =>
      rw [nodeAt_cons_zero] at hx
      rw [List.set_cons_zero, firstMatch, firstMatch, hx]
    | succ j =>
      rw [nodeAt_cons_succ] at hx
      rw [List.set_cons_succ, firstMatch, firstMatch, ih j x hx s]

theorem firstMatch_append_some (s : String) :
    ∀ (F G : List DiagEntry) (j : Nat), firstMatch s F = some j →
      firstMatch s (F ++ G) = some j := by
  intro F G
  induction F with
  | nil => intro j h; exact absurd h (by simp [firstMatch])
  | cons e es ih =>
    intro j h
    rw [firstMatch] at h
    rw [List.cons_append, firstMatch]
    split at h
    · rw [if_pos (by assumption)]
      exact h
    · rw [if_neg (by assumption)]
      obtain ⟨j0, hj0, hj⟩ := Option.map_eq_some'.mp h
      subst hj
      rw [ih j0 hj0]
      rfl

theorem firstMatch_append_new (s : String) :
    ∀ (F : List DiagEntry) (x : DiagEntry), firstMatch s F = none → x.name = s →
      firstMatch s (F ++ [x]) = some F.length := by
  intro F
  induction F with
  | nil =>
    intro x _ hx
    simp [firstMatch, hx]
  | cons e es ih =>
    intro x h hx
    rw [firstMatch] at h
    split at h
    · cases h
    · rw [List.cons_append, firstMatch, if_neg (by assumption)]
      rw [ih x (by simpa using h) hx]
      rfl

theorem nodeAt_append_lt :
    ∀ (F G : List DiagEntry) (j : Nat), j < F.length →
      nodeAt (F ++ G) j = nodeAt F j := by
  intro F G
  induction F with
  | nil => intro j h; exact absurd h (by simp)
  | cons e es ih =>
    intro j h
    cases j with
    | zero => rfl
    | succ j =>
      rw [List.cons_append, nodeAt_cons_succ, nodeAt_cons_succ]
      exact ih j (by simp at h; omega)

theorem nodeAt_append_len :
    ∀ (F : List DiagEntry) (x : DiagEntry), nodeAt (F ++ [x]) F.length = x := by
  intro F x
  induction F with
  | nil => rfl
  | cons e es ih =>
    rw [List.cons_append, List.length_cons, nodeAt_cons_succ]
    exact ih

theorem colonFree_splitList :
    ∀ l : List Char, ':' ∉ l → jsSplitList ':' l = [l] := by
  intro l
  induction l with
  | nil => intro _; rfl
  | cons c cs ih =>
    intro h
    simp only [List.mem_cons, not_or] at h
    rw [jsSplitList, ih h.2]
    simp only []
    rw [if_neg (fun hc : c = ':' => h.1 hc.symm)]

theorem colonFree_jsSplit (s : String) (h : ':' ∉ s.data) : jsSplit ':' s = [s] := by
  rw [jsSplit, colonFree_splitList s.data h]
  rfl

theorem mkNewEntry_name (r : InRecord) (parts : List String) (part : String) (idx : Nat)
    (h : ':' ∉ part.data) : (mkNewEntry r parts part idx).name = part := by
  simp [mkNewEntry, colonFree_jsSplit part h, DiagEntry.name]

theorem mkNewEntry_children (r : InRecord) (parts : List String) (part : String) (idx : Nat) :
    (mkNewEntry r parts part idx).children = [] := rfl

theorem chainFollow_nil_eq (F : List DiagEntry) : chainFollow [] F = some [] := by
  rw [chainFollow]

theorem chainFollow_cons_eq (seg : String) (segs : List String) (F : List DiagEntry)
    (j : Nat) (q : List Nat) (h : firstMatch seg F = some j)
    (hq : chainFollow segs (nodeAt F j).children = some q) :
    chainFollow (seg :: segs) F = some (j :: q) := by
  rw [chainFollow, h]
  have h2 : (match chainFollow segs (nodeAt F j).children with
      | none => none
      | some p => some (j :: p)) = some (j :: q) := by
    rw [hq]
  exact h2

theorem chainFollow_cons_inv (seg : String) (segs : List String) (F : List DiagEntry)
    (p : List Nat) (h : chainFollow (seg :: segs) F = some p) :
    ∃ j q, firstMatch seg F = some j
      ∧ chainFollow segs (nodeAt F j).children = some q ∧ p = j :: q := by
  rw [chainFollow] at h
  cases hm : firstMatch seg F with
  | none =>
    rw [hm] at h
    have h2 : (none : Option (List Nat)) = some p := h
    cases h2
  | some j =>
    rw [hm] at h
    have h2 : (match chainFollow segs (nodeAt F j).children with
        | none => none
        | some q => some (j :: q)) = some p := h
    cases hq : chainFollow segs (nodeAt F j).children with
    | none =>
      rw [hq] at h2
      cases h2
    | some q =>
      rw [hq] at h2
      injection h2 with h3
      exact ⟨j, q, rfl, hq, h3.symm⟩

theorem chainFollow_set_step (F : List DiagEntry) (jf : Nat) (x : DiagEntry)
    (hjf : jf < F.length) (hname : x.name = (nodeAt F jf).name)
    (cseg : String) (ctail : List String) (ptail : List Nat)
    (hm : firstMatch cseg F = some jf)
    (hc : chainFollow ctail x.children = some ptail) :
    chainFollow (cseg :: ctail) (F.set jf x) = some (jf :: ptail) := by
  refine chainFollow_cons_eq cseg ctail _ jf ptail ?_ ?_
  · rw [firstMatch_set_name F jf x hname cseg]
    exact hm
  · rw [nodeAt_set_self F jf x hjf]
    exact hc

theorem chainFollow_set_other (F : List DiagEntry) (jf : Nat) (x : DiagEntry)
    (hname : x.name = (nodeAt F jf).name)
    (cseg : String) (ctail : List String) (ptail : List Nat) (j0 : Nat)
    (hjj : j0 ≠ jf) (hm0 : firstMatch cseg F = some j0)
    (hc : chainFollow ctail (nodeAt F j0).children = some ptail) :
    chainFollow (cseg :: ctail) (F.set jf x) = some (j0 :: ptail) := by
  refine chainFollow_cons_eq cseg ctail _ j0 ptail ?_ ?_
  · rw [firstMatch_set_name F jf x hname cseg]
    exact hm0
  · rw [nodeAt_set_ne F jf j0 x hjj]
    exact hc

theorem chainFollow_append_new (F : List DiagEntry) (x : DiagEntry)
    (cseg : String) (ctail : List String) (ptail : List Nat)
    (hm : firstMatch cseg F = none) (hx : x.name = cseg)
    (hc : chainFollow ctail x.children = some ptail) :
    chainFollow (cseg :: ctail) (F ++ [x]) = some (F.length :: ptail) := by
  refine chainFollow_cons_eq cseg ctail _ F.length ptail ?_ ?_
  · exact firstMatch_append_new cseg F x hm hx
  · rw [nodeAt_append_len]
    exact hc

theorem chainFollow_append_old (F G : List DiagEntry)
    (cseg : String) (ctail : List String) (ptail : List Nat) (j0 : Nat)
    (hm0 : firstMatch cseg F = some j0)
    (hc : chainFollow ctail (nodeAt F j0).children = some ptail) :
    chainFollow (cseg :: ctail) (F ++ G) = some (j0 :: ptail) := by
  refine chainFollow_cons_eq cseg ctail _ j0 ptail ?_ ?_
  · exact firstMatch_append_some cseg F G j0 hm0
  · rw [nodeAt_append_lt F G j0 (firstMatch_lt cseg F j0 hm0)]
    exact hc

theorem chainFollow_insertLoop_stable (r : InRecord) (parts : List String) :
    ∀ (segs : List String) (idx : Nat) (F : List DiagEntry) (chain : List String)
      (p : List Nat),
      chainFollow chain F = some p →
      chainFollow chain (insertLoop r parts segs idx F) = some p := by
  intro segs
  induction segs with
  | nil =>
    intro idx F chain p hf
    rw [insertLoop]
    exact hf
  | cons part rest ih =>
    intro idx F chain p hf
    by_cases hemp : part = ""
    · rw [insertLoop, if_pos hemp]
      exact ih (idx + 1) F chain p hf
    · rw [insertLoop, if_neg hemp]
      cases chain with
      | nil =>
        rw [chainFollow_nil_eq] at hf
        rw [chainFollow_nil_eq]
        exact hf
      | cons cseg ctail =>
        obtain ⟨j0, ptail, hm0, hmc, hp⟩ := chainFollow_cons_inv cseg ctail F p hf
        subst hp
        cases hm : firstMatch part F with
        | some jf =>
          have hjf : jf < F.length := firstMatch_lt part F jf hm
          have hn1 : (if idx = parts.length - 1
                then applyTerminal r (nodeAt F jf)
                else nodeAt F jf).name = (nodeAt F jf).name := by
            split
            · rw [name_applyTerminal]
            · rfl
          have hc1 : (if idx = parts.length - 1
                then applyTerminal r (nodeAt F jf)
                else nodeAt F jf).children = (nodeAt F jf).children := by
            split
            · rw [children_applyTerminal]
            · rfl
          by_cases hjj : j0 = jf
          · subst hjj
            refine chainFollow_set_step F j0 _ hjf
              (by rw [name_setChildren, hn1]) cseg ctail ptail hm0 ?_
            rw [children_setChildren, hc1]
            exact ih (idx + 1) (nodeAt F j0).children ctail ptail hmc
          · exact chainFollow_set_other F jf _
              (by rw [name_setChildren, hn1]) cseg ctail ptail j0 hjj hm0 hmc
        | none =>
          exact chainFollow_append_old F _ cseg ctail ptail j0 hm0 hmc

theorem chainFollow_insertLoop_create (r : InRecord) (parts : List String) :
    ∀ (segs : List String) (idx : Nat) (F : List DiagEntry) (chain : List String),
      (∀ s ∈ chain, GoodSeg s) →
      (∃ t, segs.filter (fun s => s ≠ "") = chain ++ t) →
      ∃ p, chainFollow chain (insertLoop r parts segs idx F) = some p := by
  intro segs
  induction segs with
  | nil =>
    intro idx F chain _ hpre
    obtain ⟨t, ht⟩ := hpre
    simp only [List.filter_nil] at ht
    obtain ⟨hc, _⟩ := List.append_eq_nil.mp ht.symm
    subst hc
    exact ⟨[], by rw [insertLoop, chainFollow_nil_eq]⟩
  | cons part rest ih =>
    intro idx F chain hg hpre
    obtain ⟨t, ht⟩ := hpre
    by_cases hemp : part = ""
    · subst hemp
      rw [insertLoop, if_pos rfl]
      refine ih (idx + 1) F chain hg ⟨t, ?_⟩
      rw [← ht]
      simp
    · have hfil : (part :: rest).filter (fun s => s ≠ "")
          = part :: rest.filter (fun s => s ≠ "") := by
        simp [hemp]
      rw [hfil] at ht
      rw [insertLoop, if_neg hemp]
      cases chain with
      | nil => exact ⟨[], chainFollow_nil_eq _⟩
      | cons cseg ctail =>
        rw [List.cons_append] at ht
        injection ht with h1 h2
        have hgood : GoodSeg cseg := hg cseg (by simp)
        have hcf : ':' ∉ part.data := by rw [h1]; exact hgood.2
        have hgtail : ∀ s ∈ ctail, GoodSeg s := fun s hs => hg s (by simp [hs])
        cases hm : firstMatch part F with
        | some jf =>
          have hjf : jf < F.length := firstMatch_lt part F jf hm
          have hn1 : (if idx = parts.length - 1
                then applyTerminal r (nodeAt F jf)
                else nodeAt F jf).name = (nodeAt F jf).name := by
            split
            · rw [name_applyTerminal]
            · rfl
          have hc1 : (if idx = parts.length - 1
                then applyTerminal r (nodeAt F jf)
                else nodeAt F jf).children = (nodeAt F jf).children := by
            split
            · rw [children_applyTerminal]
            · rfl
          obtain ⟨ptail, hpt⟩ := ih (idx + 1) (nodeAt F jf).children ctail hgtail ⟨t, h2⟩
          refine ⟨jf :: ptail, ?_⟩
          refine chainFollow_set_step F jf _ hjf
            (by rw [name_setChildren, hn1]) cseg ctail ptail (by rw [← h1]; exact hm) ?_
          rw [children_setChildren, hc1]
          exact hpt
        | none =>
          have hn1 : (if idx = parts.length - 1
                then applyTerminal r (mkNewEntry r parts part idx)
                else mkNewEntry r parts part idx).name = part := by
            split
            · rw [name_applyTerminal, mkNewEntry_name r parts part idx hcf]
            · rw [mkNewEntry_name r parts part idx hcf]
          have hc1 : (if idx = parts.length - 1
                then applyTerminal r (mkNewEntry r parts part idx)
                else mkNewEntry r parts part idx).children = [] := by
            split
            · rw [children_applyTerminal, mkNewEntry_children]
            · rw [mkNewEntry_children]
          obtain ⟨ptail, hpt⟩ := ih (idx + 1)
            (if idx = parts.length - 1
              then applyTerminal r (mkNewEntry r parts part idx)
              else mkNewEntry r parts part idx).children ctail hgtail ⟨t, h2⟩
          refine ⟨F.length :: ptail, ?_⟩
          refine chainFollow_append_new F _ cseg ctail ptail
            (by rw [← h1]; exact hm) (by rw [name_setChildren, hn1, h1]) ?_
          rw [children_setChildren]
          exact hpt

theorem build_take_succ (rs : List InRecord) (m : Nat) (hm : m < rs.length) :
    buildDiagnosticsTree (rs.take (m + 1))
      = insertRecord (buildDiagnosticsTree (rs.take m)) (rs.get ⟨m, hm⟩) := by
  rw [buildDiagnosticsTree, buildDiagnosticsTree, List.take_succ,
    List.getElem?_eq_getElem hm, Option.toList_some, List.foldl_append, List.foldl_cons,
    List.foldl_nil]
  rfl

theorem chainFollow_build_range (rs : List InRecord) (i : Nat) (hi : i < rs.length)
    (chain : List String) (hg : ∀ s ∈ chain, GoodSeg s)
    (hpre : ∃ t, nonemptySegs (rs.get ⟨i, hi⟩) = chain ++ t) :
    ∃ p, ∀ m, i < m → m ≤ rs.length →
      chainFollow chain (buildDiagnosticsTree (rs.take m)) = some p := by
  obtain ⟨t, ht⟩ := hpre
  obtain ⟨p, hp⟩ := chainFollow_insertLoop_create (rs.get ⟨i, hi⟩)
    (jsSplit '/' (rs.get ⟨i, hi⟩).name) (jsSplit '/' (rs.get ⟨i, hi⟩).name) 0
    (buildDiagnosticsTree (rs.take i)) chain hg ⟨t, ht⟩
  refine ⟨p, ?_⟩
  have H : ∀ m, i + 1 ≤ m → m ≤ rs.length →
      chainFollow chain (buildDiagnosticsTree (rs.take m)) = some p := by
    intro m hm
    induction m, hm using Nat.le_induction with
    | base =>
      intro _
      rw [build_take_succ rs i hi]
      exact hp
    | succ n hn ihm =>
      intro hlen
      have hn_len : n < rs.length := by omega
      rw [build_take_succ rs n hn_len]
      exact chainFollow_insertLoop_stable _ _ _ 0 _ chain p (ihm (by omega))
  intro m hm1 hm2
  exact H m hm1 hm2

/-- Claim C3 (counterexample): the two records "a:x/c" and "a:x/d" agree
on the left-of-colon form of their first segment (indeed on the whole
raw segment "a:x"), yet the builder creates two distinct top-level nodes
(both displayed "a", one holding child "c", the other child "d"): the
records are not routed through any shared node, because sibling matching
compares the stored display name "a" against the raw segment "a:x" and
never matches. -/
theorem C3_counterexample :
    (buildDiagnosticsTree [recC3a, recC3b]).length = 2
    ∧ (nodeAt (buildDiagnosticsTree [recC3a, recC3b]) 0).name = "a"
    ∧ (nodeAt (buildDiagnosticsTree [recC3a, recC3b]) 1).name = "a"
    ∧ ((nodeAt (buildDiagnosticsTree [recC3a, recC3b]) 0).children.map DiagEntry.name)
        = ["c"]
    ∧ ((nodeAt (buildDiagnosticsTree [recC3a, recC3b]) 1).children.map DiagEntry.name)
        = ["d"] := by
  refine ⟨?_, ?_, ?_, ?_, ?_⟩ <;> decide

/-- Claim C3 (amended): sibling matching compares the raw segment
(including any `:suffix`) against the stored display names, so grouping
is guaranteed only for colon-free segments: for any two records i and j
of the input list whose non-empty segments both start with a common
chain of non-empty, colon-free segments, there is one fixed chain p of
sibling positions such that from the moment each record has been
inserted, following that segment chain by the builder's own matching
resolves to exactly p in every later forest — in particular both records
are routed through the same shared nodes, regardless of their relative
order and of any other records in the list.  A segment that carries a
`:suffix` instead creates a fresh sibling on every occurrence. -/
theorem C3_amended_thm (rs : List InRecord) (i j : Nat)
    (hi : i < rs.length) (hj : j < rs.length) (chain : List String)
    (hg : ∀ s ∈ chain, s ≠ "" ∧ ':' ∉ s.data)
    (hpi : ∃ t, nonemptySegs (rs.get ⟨i, hi⟩) = chain ++ t)
    (hpj : ∃ t, nonemptySegs (rs.get ⟨j, hj⟩) = chain ++ t) :
    ∃ p, (∀ m, i < m → m ≤ rs.length →
            chainFollow chain (buildDiagnosticsTree (rs.take m)) = some p)
       ∧ (∀ m, j < m → m ≤ rs.length →
            chainFollow chain (buildDiagnosticsTree (rs.take m)) = some p) := by
  obtain ⟨p, hp⟩ := chainFollow_build_range rs i hi chain hg hpi
  obtain ⟨q, hq⟩ := chainFollow_build_range rs j hj chain hg hpj
  have h1 := hp rs.length hi (le_refl _)
  have h2 := hq rs.length hj (le_refl _)
  rw [h1] at h2
  injection h2 with h3
  refine ⟨p, hp, ?_⟩
  intro m hm1 hm2
  rw [hq m hm1 hm2, h3]

/-- Claim C3 witness: the records "a/b" and "a/c" share the colon-free
chain ["a"]; after the first insertion and in the final forest the chain
resolves to the same position, namely the single top node. -/
theorem C3_amended_thm_witness :
    chainFollow ["a"] (buildDiagnosticsTree (List.take 1 [recW1, recW2]))
      = chainFollow ["a"] (buildDiagnosticsTree (List.take 2 [recW1, recW2]))
    ∧ chainFollow ["a"] (buildDiagnosticsTree [recW1, recW2]) = some [0] := by
  obtain ⟨p, hp1, hp2⟩ := C3_amended_thm [recW1, recW2] 0 1 (by decide) (by decide)
    ["a"] (by decide) ⟨["b"], by decide⟩ ⟨["c"], by decide⟩
  constructor
  · rw [hp1 1 (by decide) (by decide), hp1 2 (by decide) (by decide)]
  · decide
